import Mathlib

/-!
Verification of the Creditra backend core: the credit-line state machine with
its append-only transaction ledger, the ledger's filter/sort/paginate query
engine, and the general-purpose list pagination utility
(`src/utils/paginate.ts`).

The pagination utility is embedded directly from its TypeScript source.
The credit service (`src/services/creditService.ts`) is exercised by the
repository's test suites and HTTP routes; its operations are modelled from
the specification (sections 4.1, 4.2 and 7).
-/

namespace Creditra

/-! ## List pagination utility (src/utils/paginate.ts) -/

/-- Query shape accepted by `paginateAndFilter`; every field is an optional
raw string, as delivered by the HTTP query-string layer. -/
structure PaginationQuery where
  page : Option String := none
  pageSize : Option String := none
  status : Option String := none
  borrower : Option String := none
  sortBy : Option String := none
  sortDirection : Option String := none
deriving Repr, DecidableEq

/-- Result envelope returned by `paginateAndFilter`. `page` and `pageSize`
are kept as integers, mirroring the JavaScript number results of
`parseInt` after clamping. -/
structure PaginatedResponse (T : Type) where
  items : List T
  total : Nat
  page : Int
  pageSize : Int
deriving Repr, DecidableEq

/-- Digits of a decimal literal folded into a natural number. -/
def digitsToNat (l : List Char) : Nat :=
  l.foldl (fun acc c => acc * 10 + (c.toNat - '0'.toNat)) 0

/-- Model of JavaScript `parseInt(s, 10)`: skip leading whitespace, read an
optional sign and then the longest leading run of decimal digits; `none`
models the `NaN` result when no digit is found. -/
def parseIntJs (s : String) : Option Int :=
  let cs := s.toList.dropWhile (fun c => c = ' ' ∨ c = '\t' ∨ c = '\n' ∨ c = '\r')
  match cs with
  | '-' :: rest =>
    let ds := rest.takeWhile (·.isDigit)
    if ds.isEmpty then none else some (-(digitsToNat ds : Int))
  | '+' :: rest =>
    let ds := rest.takeWhile (·.isDigit)
    if ds.isEmpty then none else some (digitsToNat ds : Int)
  | _ =>
    let ds := cs.takeWhile (·.isDigit)
    if ds.isEmpty then none else some (digitsToNat ds : Int)

/-- Substring test on character lists: does the second list occur
contiguously inside the first one? Models `String.prototype.includes`. -/
def containsSub (needle : List Char) : List Char → Bool
  | [] => needle.isPrefixOf []
  | c :: t => needle.isPrefixOf (c :: t) || containsSub needle t

/-- Case-insensitive substring test, modelling
`a.toLowerCase().includes(b.toLowerCase())`. -/
def includesLower (hay needle : String) : Bool :=
  containsSub (needle.toList.map Char.toLower) (hay.toList.map Char.toLower)

/-- Filter predicate of `paginateAndFilter`: exact match on the (mapped)
status field and case-insensitive substring match on the (mapped) borrower
field, honouring JavaScript truthiness of the query values and of the
borrower field value. `fieldOf` models the duck-typed `item[key]` access,
returning a string or `undefined`; `fm` models the caller-supplied
`fieldMapping` record. -/
def filterFn {T : Type} (fieldOf : T → String → Option String)
    (q : PaginationQuery) (fm : String → Option String) (item : T) : Bool :=
  let statusKey := (fm "status").getD "status"
  let borrowerKey := (fm "borrower").getD "borrower"
  let statusOk :=
    match q.status with
    | some qs => if qs ≠ "" then fieldOf item statusKey == some qs else true
    | none => true
  let borrowerOk :=
    match q.borrower with
    | some qb =>
      if qb ≠ "" then
        match fieldOf item borrowerKey with
        | some bv => if bv ≠ "" then includesLower bv qb else false
        | none => false
      else true
    | none => true
  statusOk && borrowerOk

/-- Sort key selected by `paginateAndFilter`: the query's `sortBy` redirected
through the field mapping, falling back to the literal key, with default
`createdAt` when `sortBy` is absent or empty. -/
def sortKeyOf (q : PaginationQuery) (fm : String → Option String) : String :=
  match q.sortBy with
  | some sb => if sb ≠ "" then (fm sb).getD sb else "createdAt"
  | none => "createdAt"

/-- Executable lexicographic strict comparison on character lists; agrees
with the library order on `List Char` (see `charListLt_iff`). -/
def charListLt : List Char → List Char → Bool
  | _, [] => false
  | [], _ :: _ => true
  | a :: as, b :: bs => decide (a < b) || (a == b && charListLt as bs)

/-- Executable strict comparison of strings, modelling the JavaScript `<`
on strings (code-unit lexicographic). -/
def strLtB (a b : String) : Bool :=
  charListLt a.toList b.toList

/-- Boolean `le` relation induced by the JavaScript comparator
`(a, b) => aVal < bVal ? (asc ? -1 : 1) : aVal > bVal ? (asc ? 1 : -1) : 0`:
`a` may stay before `b` exactly when the comparator does not return a
positive number. Field values are read with `?? ''`. -/
def sortLe {T : Type} (fieldOf : T → String → Option String)
    (key : String) (desc : Bool) (a b : T) : Bool :=
  let av := (fieldOf a key).getD ""
  let bv := (fieldOf b key).getD ""
  if desc then !(strLtB av bv) else !(strLtB bv av)

/-- Filtered data of `paginateAndFilter` after the stable in-place sort;
the slice returned as `items` is taken from this sequence. The engine's
stable sort is modelled by a stable structurally-recursive sort; for the
consistent comparator at hand, every stable sort produces the same list. -/
def sortedFiltered {T : Type} (fieldOf : T → String → Option String)
    (data : List T) (q : PaginationQuery) (fm : String → Option String) : List T :=
  (data.filter (filterFn fieldOf q fm)).insertionSort
    (fun a b => sortLe fieldOf (sortKeyOf q fm) (q.sortDirection == some "desc") a b = true)

/-- Embedding of `paginateAndFilter` from `src/utils/paginate.ts`: parse and
clamp `page` (minimum 1, default 1) and `pageSize` (into `[1,100]`, default
10), filter by status/borrower, sort stably by the mapped `sortBy` key, and
return the requested slice together with the filtered total. -/
def paginateAndFilter {T : Type} (fieldOf : T → String → Option String)
    (data : List T) (q : PaginationQuery) (fm : String → Option String) :
    PaginatedResponse T :=
  let parsedPage := parseIntJs (q.page.getD "1")
  let parsedPageSize := parseIntJs (q.pageSize.getD "10")
  let page : Int := max 1 (parsedPage.getD 1)
  let pageSize : Int := min 100 (max 1 (parsedPageSize.getD 10))
  let sorted := sortedFiltered fieldOf data q fm
  let total := sorted.length
  let start := (page - 1) * pageSize
  { items := (sorted.drop start.toNat).take pageSize.toNat
    total := total
    page := page
    pageSize := pageSize }

/-- Heap-level rendering of `paginateAndFilter`, making the JavaScript
array aliasing explicit: a heap of arrays, the input passed by reference,
`data.filter(...)` allocating a fresh array, and `.sort(...)` mutating that
fresh array in place. The function returns the final heap together with
the response. -/
def paginateAndFilterHeap {T : Type} (fieldOf : T → String → Option String)
    (heap : List (List T)) (dataRef : Nat) (q : PaginationQuery)
    (fm : String → Option String) : List (List T) × PaginatedResponse T :=
  let data := heap.getD dataRef []
  let filtered := data.filter (filterFn fieldOf q fm)
  let heap₁ := heap ++ [filtered]
  let fRef := heap.length
  let sorted := (heap₁.getD fRef []).insertionSort
    (fun a b => sortLe fieldOf (sortKeyOf q fm) (q.sortDirection == some "desc") a b = true)
  let heap₂ := heap₁.set fRef sorted
  let parsedPage := parseIntJs (q.page.getD "1")
  let parsedPageSize := parseIntJs (q.pageSize.getD "10")
  let page : Int := max 1 (parsedPage.getD 1)
  let pageSize : Int := min 100 (max 1 (parsedPageSize.getD 10))
  let start := (page - 1) * pageSize
  (heap₂,
    { items := (sorted.drop start.toNat).take pageSize.toNat
      total := sorted.length
      page := page
      pageSize := pageSize })

/-! ## Credit line engine and transaction ledger (services/creditService) -/

/-- Lifecycle status of a credit line (spec section 3). -/
inductive Status where
  | active
  | suspended
  | closed
deriving Repr, DecidableEq

/-- Lifecycle event action recorded in a credit line's `events` log. -/
inductive LifecycleAction where
  | created
  | suspended
  | closed
deriving Repr, DecidableEq

/-- Transaction type of a ledger entry. -/
inductive TxType where
  | draw
  | repayment
  | status_change
deriving Repr, DecidableEq

/-- Entry of a credit line's append-only `events` log. -/
structure LifecycleEvent where
  action : LifecycleAction
  timestamp : Nat
deriving Repr, DecidableEq

/-- Modelled from the spec: the `CreditLine` record of section 3
(`services/creditService` is not present under `src/`; only its tests and
HTTP callers are). Timestamps are modelled as a logical clock. -/
structure CreditLine where
  id : String
  status : Status
  createdAt : Nat
  updatedAt : Nat
  events : List LifecycleEvent
deriving Repr, DecidableEq

/-- Modelled from the spec: a ledger `Transaction` of section 3. The
free-form metadata map is restricted to the two keys the engine writes:
`action` (for status_change entries) and `borrower` (for draw entries). -/
structure Transaction where
  id : Nat
  creditLineId : String
  type : TxType
  amount : Option Int
  currency : Option String
  timestamp : Nat
  metadataAction : Option LifecycleAction
  metadataBorrower : Option String
deriving Repr, DecidableEq

/-- Modelled from the spec: the error taxonomy of section 7.
`creditLineNotFound` carries the id, `invalidTransition` carries the current
status and the attempted action, `validationError` carries the offending
field name. -/
inductive CreditError where
  | creditLineNotFound (id : String)
  | invalidTransition (currentStatus : Status) (requestedAction : String)
  | duplicateId (id : String)
  | validationError (field : String)
deriving Repr, DecidableEq

/-- Modelled from the spec: the engine's in-memory state — the keyed
credit-line store, the append-only transaction ledger (kept in append =
chronological order), the generator for unique transaction ids, and the
logical clock used to stamp mutations. -/
structure EngineState where
  store : String → Option CreditLine
  txStore : List Transaction
  nextTxId : Nat
  now : Nat

/-- Empty engine state, as after `_resetStore()`. -/
def initState : EngineState :=
  { store := fun _ => none, txStore := [], nextTxId := 0, now := 0 }

/-- Keyed-map update of the credit line store. -/
def storeSet (st : String → Option CreditLine) (id : String) (line : CreditLine) :
    String → Option CreditLine :=
  fun i => if i == id then some line else st i

/-- Modelled from the spec: `get(id)`, a read without side effects. -/
def getCreditLine (s : EngineState) (id : String) : Option CreditLine :=
  s.store id

/-- Status-change ledger entry appended atomically with a lifecycle event. -/
def mkStatusChangeTx (txId : Nat) (id : String) (act : LifecycleAction)
    (now : Nat) : Transaction :=
  { id := txId, creditLineId := id, type := .status_change, amount := none,
    currency := none, timestamp := now, metadataAction := some act,
    metadataBorrower := none }

/-- Modelled from the spec: `create(id, initialStatus = active)` of section
4.1. Fails with the duplicate-id error when the id is already present;
otherwise stores a fresh record with a single `created` event and appends
one matching status_change transaction. -/
def createCreditLine (s : EngineState) (id : String)
    (initialStatus : Status := .active) :
    Except CreditError (CreditLine × EngineState) :=
  match getCreditLine s id with
  | some _ => .error (.duplicateId id)
  | none =>
    let line : CreditLine :=
      { id := id, status := initialStatus, createdAt := s.now,
        updatedAt := s.now, events := [⟨.created, s.now⟩] }
    .ok (line,
      { store := storeSet s.store id line
        txStore := s.txStore ++ [mkStatusChangeTx s.nextTxId id .created s.now]
        nextTxId := s.nextTxId + 1
        now := s.now + 1 })

/-- Modelled from the spec: `suspend(id)` of section 4.1. Legal only from
`active`; otherwise the invalid-transition error carries the current status
and the attempted action `"suspend"`. -/
def suspendCreditLine (s : EngineState) (id : String) :
    Except CreditError (CreditLine × EngineState) :=
  match getCreditLine s id with
  | none => .error (.creditLineNotFound id)
  | some line =>
    match line.status with
    | .active =>
      let line' : CreditLine :=
        { line with
          status := .suspended, updatedAt := s.now,
          events := line.events ++ [⟨.suspended, s.now⟩] }
      .ok (line',
        { store := storeSet s.store id line'
          txStore := s.txStore ++ [mkStatusChangeTx s.nextTxId id .suspended s.now]
          nextTxId := s.nextTxId + 1
          now := s.now + 1 })
    | st => .error (.invalidTransition st "suspend")

/-- Modelled from the spec: `close(id)` of section 4.1. Legal from `active`
and from `suspended`; `closed` is terminal, so closing an already closed
line yields the invalid-transition error with attempted action `"close"`. -/
def closeCreditLine (s : EngineState) (id : String) :
    Except CreditError (CreditLine × EngineState) :=
  match getCreditLine s id with
  | none => .error (.creditLineNotFound id)
  | some line =>
    if line.status = .active ∨ line.status = .suspended then
      let line' : CreditLine :=
        { line with
          status := .closed, updatedAt := s.now,
          events := line.events ++ [⟨.closed, s.now⟩] }
      .ok (line',
        { store := storeSet s.store id line'
          txStore := s.txStore ++ [mkStatusChangeTx s.nextTxId id .closed s.now]
          nextTxId := s.nextTxId + 1
          now := s.now + 1 })
    else .error (.invalidTransition line.status "close")

/-- Modelled from the spec: `draw(id, borrowerId, amount)` of section 4.1.
Appends a `draw` transaction recording the amount and borrower without
altering the line's status or events; non-positive amounts are rejected
with a validation error. -/
def drawFromCreditLine (s : EngineState) (id borrowerId : String)
    (amount : Int) : Except CreditError (CreditLine × EngineState) :=
  match getCreditLine s id with
  | none => .error (.creditLineNotFound id)
  | some line =>
    if amount ≤ 0 then .error (.validationError "amount")
    else
      let line' : CreditLine := { line with updatedAt := s.now }
      let tx : Transaction :=
        { id := s.nextTxId, creditLineId := id, type := .draw,
          amount := some amount, currency := none, timestamp := s.now,
          metadataAction := none, metadataBorrower := some borrowerId }
      .ok (line',
        { store := storeSet s.store id line'
          txStore := s.txStore ++ [tx]
          nextTxId := s.nextTxId + 1
          now := s.now + 1 })

/-! ## Ledger query engine (spec section 4.2) -/

/-- A JavaScript number as handed to the query engine for `page`/`limit`
after `parseInt` at the HTTP layer, or directly by a caller: either `NaN`
or a finite value, which need not be an integer. -/
inductive JsNum where
  | nan
  | val (q : Rat)
deriving Repr, DecidableEq

/-- A date filter value as received by the query engine: either the result
of parsing a well-formed ISO-8601 string (modelled on the logical clock) or
a non-parseable input. -/
inductive DateInput where
  | invalid
  | parsed (t : Nat)
deriving Repr, DecidableEq

/-- Filter argument of `getTransactions`; every field is optional. -/
structure TxFilter where
  type : Option String := none
  fromDate : Option DateInput := none
  toDate : Option DateInput := none
deriving Repr, DecidableEq

/-- Pagination argument of `getTransactions`. -/
structure PageQuery where
  page : Option JsNum := none
  limit : Option JsNum := none
deriving Repr, DecidableEq

/-- Result envelope of the ledger query. -/
structure QueryResult where
  transactions : List Transaction
  total : Nat
  page : Nat
  limit : Nat
  totalPages : Nat
deriving Repr, DecidableEq

/-- Transaction type strings accepted by the query's `type` filter
(`VALID_TRANSACTION_TYPES` in `src/routes/credit.ts`). -/
def VALID_TRANSACTION_TYPES : List String :=
  ["draw", "repayment", "status_change"]

/-- Modelled from the spec: validation of the `type` filter — an
unrecognized value is a validation error, not an empty result. -/
def validateTypeFilter : Option String → Except CreditError (Option TxType)
  | none => .ok none
  | some "draw" => .ok (some .draw)
  | some "repayment" => .ok (some .repayment)
  | some "status_change" => .ok (some .status_change)
  | some _ => .error (.validationError "type")

/-- Modelled from the spec: validation of a `from`/`to` date filter —
non-parseable strings are validation errors carrying the field name. -/
def validateDateFilter (field : String) :
    Option DateInput → Except CreditError (Option Nat)
  | none => .ok none
  | some .invalid => .error (.validationError field)
  | some (.parsed t) => .ok (some t)

/-- Modelled from the spec: validation of `page` — an integer at least 1,
default 1; `NaN`, non-integers and values below 1 are validation errors,
never clamped. -/
def validatePageNum : Option JsNum → Except CreditError Nat
  | none => .ok 1
  | some .nan => .error (.validationError "page")
  | some (.val q) =>
    if q.den = 1 ∧ 1 ≤ q.num then .ok q.num.toNat
    else .error (.validationError "page")

/-- Modelled from the spec: validation of `limit` — an integer in `[1,100]`
inclusive, default 20; `NaN`, non-integers and out-of-range values are
validation errors, never clamped. -/
def validateLimitNum : Option JsNum → Except CreditError Nat
  | none => .ok 20
  | some .nan => .error (.validationError "limit")
  | some (.val q) =>
    if q.den = 1 ∧ 1 ≤ q.num ∧ q.num ≤ 100 then .ok q.num.toNat
    else .error (.validationError "limit")

/-- Modelled from the spec: steps (1)-(3) of the query algorithm — select
the transactions of the requested credit line, then apply the type filter,
then the inclusive from/to date range, keeping chronological order. -/
def filteredTxs (txs : List Transaction) (id : String) (tpe : Option TxType)
    (fromT toT : Option Nat) : List Transaction :=
  ((txs.filter (fun tx => tx.creditLineId == id)).filter
      (fun tx =>
        match tpe with
        | none => true
        | some t => tx.type == t)).filter
    (fun tx =>
      (match fromT with
       | none => true
       | some f => decide (f ≤ tx.timestamp))
      &&
      (match toT with
       | none => true
       | some t => decide (tx.timestamp ≤ t)))

/-- Modelled from the spec: steps (4)-(6) of the query algorithm — the
filtered total, `totalPages = max(1, ceil(total/limit))`, and the slice
`[(page-1)*limit, page*limit)` of the filtered sequence. -/
def ledgerQuery (txs : List Transaction) (id : String) (tpe : Option TxType)
    (fromT toT : Option Nat) (page limit : Nat) : QueryResult :=
  let filtered := filteredTxs txs id tpe fromT toT
  let total := filtered.length
  { transactions := (filtered.drop ((page - 1) * limit)).take limit
    total := total
    page := page
    limit := limit
    totalPages := max 1 ((total + limit - 1) / limit) }

/-- Modelled from the spec: `getTransactions(id, filter, page)` of sections
4.1 and 4.2 — fail with the not-found error before any filtering or
pagination work, validate the filter and pagination input, then run the
ledger query. -/
def getTransactions (s : EngineState) (id : String) (f : TxFilter)
    (pq : PageQuery) : Except CreditError QueryResult :=
  match getCreditLine s id with
  | none => .error (.creditLineNotFound id)
  | some _ =>
    match validateTypeFilter f.type with
    | .error e => .error e
    | .ok tpe =>
      match validateDateFilter "from" f.fromDate with
      | .error e => .error e
      | .ok fromT =>
        match validateDateFilter "to" f.toDate with
        | .error e => .error e
        | .ok toT =>
          match validatePageNum pq.page with
          | .error e => .error e
          | .ok page =>
            match validateLimitNum pq.limit with
            | .error e => .error e
            | .ok limit =>
              .ok (ledgerQuery s.txStore id tpe fromT toT page limit)

/-! ## Engine operation sequences -/

/-- A mutating engine operation, for reasoning about arbitrary interleaved
call sequences. -/
inductive Op where
  | createOp (id : String) (initialStatus : Status)
  | suspendOp (id : String)
  | closeOp (id : String)
  | drawOp (id borrowerId : String) (amount : Int)
deriving Repr, DecidableEq

/-- Outcome of one operation on the engine state. -/
def applyOp (s : EngineState) : Op → Except CreditError EngineState
  | .createOp id st => (createCreditLine s id st).map (·.2)
  | .suspendOp id => (suspendCreditLine s id).map (·.2)
  | .closeOp id => (closeCreditLine s id).map (·.2)
  | .drawOp id b a => (drawFromCreditLine s id b a).map (·.2)

/-- State after one operation; a rejected operation leaves the state
unchanged (the engine fails fast without partial updates). -/
def step (s : EngineState) (op : Op) : EngineState :=
  match applyOp s op with
  | .ok s' => s'
  | .error _ => s

/-- State after a sequence of operations. -/
def run (s : EngineState) : List Op → EngineState
  | [] => s
  | op :: ops => run (step s op) ops

/-- Count of accepted suspend/close calls for a given line along an
operation sequence started in state `s`. -/
def acceptedLifecycle (s : EngineState) (id : String) : List Op → Nat
  | [] => 0
  | op :: ops =>
    (match op with
     | .suspendOp i => if i = id ∧ (applyOp s op).isOk then 1 else 0
     | .closeOp i => if i = id ∧ (applyOp s op).isOk then 1 else 0
     | _ => 0)
    + acceptedLifecycle (step s op) id ops

/-- Number of status_change transactions recorded for a line. -/
def countStatusChange (txs : List Transaction) (id : String) : Nat :=
  (txs.filter (fun tx => tx.creditLineId == id && tx.type == TxType.status_change)).length

/-! ## Theorems -/

/-- Membership characterization of the ledger query's filtering pipeline:
a transaction is selected iff it belongs to the store, is owned by the
requested line, matches the optional type filter, and lies inside the
inclusive from/to window. -/
theorem mem_filteredTxs {txs : List Transaction} {id : String}
    {tpe : Option TxType} {fromT toT : Option Nat} {tx : Transaction} :
    tx ∈ filteredTxs txs id tpe fromT toT ↔
      tx ∈ txs ∧ tx.creditLineId = id
      ∧ (∀ t, tpe = some t → tx.type = t)
      ∧ (∀ f, fromT = some f → f ≤ tx.timestamp)
      ∧ (∀ t, toT = some t → tx.timestamp ≤ t) := by
  unfold filteredTxs
  simp only [List.mem_filter, Bool.and_eq_true, beq_iff_eq]
  cases tpe <;> cases fromT <;> cases toT <;>
    simp [and_assoc, decide_eq_true_eq]

/-- C6: for every transaction and every valid from/to filter, the
date-range selection of the transactions query is inclusive on both
bounds — a transaction is included iff `from ≤ timestamp` (when `from` is
given) and `timestamp ≤ to` (when `to` is given), combined by logical AND
with the type filter and the line-ownership condition. -/
theorem filteredTxs_date_range_inclusive (txs : List Transaction)
    (id : String) (tpe : Option TxType) (fromT toT : Option Nat)
    (tx : Transaction) :
    tx ∈ filteredTxs txs id tpe fromT toT ↔
      tx ∈ txs ∧ tx.creditLineId = id
      ∧ (∀ t, tpe = some t → tx.type = t)
      ∧ (∀ f, fromT = some f → f ≤ tx.timestamp)
      ∧ (∀ t, toT = some t → tx.timestamp ≤ t) :=
  mem_filteredTxs

/-- C1: the transition table of the state machine, exactly — suspend
succeeds iff the stored line is active, close succeeds iff it is not yet
closed, and every rejected call fails with `InvalidTransitionError`
carrying the line's current status and the attempted action. -/
theorem suspend_close_transition_legality (s : EngineState) (id : String)
    (line : CreditLine) (h : getCreditLine s id = some line) :
    ((suspendCreditLine s id).isOk ↔ line.status = .active)
    ∧ ((closeCreditLine s id).isOk ↔ line.status ≠ .closed)
    ∧ (line.status ≠ .active →
        suspendCreditLine s id = .error (.invalidTransition line.status "suspend"))
    ∧ (line.status = .closed →
        closeCreditLine s id = .error (.invalidTransition line.status "close")) := by
  unfold suspendCreditLine closeCreditLine
  rw [h]
  cases hst : line.status <;> simp [Except.isOk, Except.toBool, hst]

/-- C7: creating a credit line whose id is already present fails with the
duplicate-id error and leaves the whole engine state — the stored record
and the ledger — unchanged; the prior record is never overwritten. -/
theorem createCreditLine_duplicate_rejected (s : EngineState) (id : String)
    (st : Status) (line : CreditLine) (h : getCreditLine s id = some line) :
    createCreditLine s id st = .error (.duplicateId id)
    ∧ step s (.createOp id st) = s := by
  have hc : createCreditLine s id st = .error (.duplicateId id) := by
    unfold createCreditLine
    rw [h]
  exact ⟨hc, by simp [step, applyOp, hc, Except.map]⟩

/-- Recognizer for validation failures of the ledger query. -/
def isValidationError : Except CreditError QueryResult → Bool
  | .error (.validationError _) => true
  | _ => false

/-- Inversion of a successful ledger query: the line exists, every
validator accepted its input, and the result is the ledger query over the
validated parameters. -/
theorem getTransactions_ok_inv {s : EngineState} {id : String} {f : TxFilter}
    {pq : PageQuery} {r : QueryResult}
    (h : getTransactions s id f pq = .ok r) :
    ∃ line tpe fromT toT page limit,
      getCreditLine s id = some line
      ∧ validateTypeFilter f.type = .ok tpe
      ∧ validateDateFilter "from" f.fromDate = .ok fromT
      ∧ validateDateFilter "to" f.toDate = .ok toT
      ∧ validatePageNum pq.page = .ok page
      ∧ validateLimitNum pq.limit = .ok limit
      ∧ r = ledgerQuery s.txStore id tpe fromT toT page limit := by
  unfold getTransactions at h
  split at h
  · exact absurd h (by simp)
  · split at h
    · exact absurd h (by simp)
    · split at h
      · exact absurd h (by simp)
      · split at h
        · exact absurd h (by simp)
        · split at h
          · exact absurd h (by simp)
          · split at h
            · exact absurd h (by simp)
            · exact ⟨_, _, _, _, _, _, by assumption, by assumption, by assumption,
                by assumption, by assumption, by assumption, (Except.ok.inj h).symm⟩

/-- Accepted limits lie in `[1, 100]`. -/
theorem validateLimitNum_ok_bounds {o : Option JsNum} {n : Nat}
    (h : validateLimitNum o = .ok n) : 1 ≤ n ∧ n ≤ 100 := by
  unfold validateLimitNum at h
  split at h
  · simp at h; omega
  · exact absurd h (by simp)
  · split at h
    · rename_i q hq
      simp only [Except.ok.injEq] at h
      omega
    · exact absurd h (by simp)

/-- C3: a successful transactions query returns only transactions owned by
the requested credit line — operations on one line never leak into
another line's results. -/
theorem getTransactions_partition_isolation (s : EngineState) (id : String)
    (f : TxFilter) (pq : PageQuery) (r : QueryResult)
    (h : getTransactions s id f pq = .ok r) :
    r.transactions.all (fun tx => tx.creditLineId == id) = true := by
  obtain ⟨line, tpe, fromT, toT, page, limit, _, _, _, _, _, _, hr⟩ :=
    getTransactions_ok_inv h
  subst hr
  rw [List.all_eq_true]
  intro tx htx
  simp only [ledgerQuery] at htx
  have hmem : tx ∈ filteredTxs s.txStore id tpe fromT toT :=
    List.mem_of_mem_drop (List.mem_of_mem_take htx)
  simpa [beq_iff_eq] using (mem_filteredTxs.mp hmem).2.1

/-- Validator errors for the type filter carry field `type`. -/
theorem validateTypeFilter_error {o : Option String} {e : CreditError}
    (h : validateTypeFilter o = .error e) : e = .validationError "type" := by
  unfold validateTypeFilter at h
  split at h <;> simp_all

/-- Validator errors for a date filter carry the filter's field name. -/
theorem validateDateFilter_error {field : String} {o : Option DateInput}
    {e : CreditError} (h : validateDateFilter field o = .error e) :
    e = .validationError field := by
  unfold validateDateFilter at h
  split at h <;> simp_all

/-- Validator errors for `page` carry field `page`. -/
theorem validatePageNum_error {o : Option JsNum} {e : CreditError}
    (h : validatePageNum o = .error e) : e = .validationError "page" := by
  unfold validatePageNum at h
  split at h <;> first
    | simp_all
    | (split at h <;> simp_all)

/-- Validator errors for `limit` carry field `limit`. -/
theorem validateLimitNum_error {o : Option JsNum} {e : CreditError}
    (h : validateLimitNum o = .error e) : e = .validationError "limit" := by
  unfold validateLimitNum at h
  split at h <;> first
    | simp_all
    | (split at h <;> simp_all)

/-- Once the line exists, every failure of the ledger query is a
validation error. -/
theorem getTransactions_error_validation {s : EngineState} {id : String}
    {f : TxFilter} {pq : PageQuery} {line : CreditLine}
    (hline : getCreditLine s id = some line) {e : CreditError}
    (h : getTransactions s id f pq = .error e) :
    ∃ fld, e = .validationError fld := by
  unfold getTransactions at h
  split at h
  · rename_i hnone
    rw [hline] at hnone
    exact absurd hnone (by simp)
  · split at h
    · exact ⟨"type", by
        rename_i e' he'
        exact (Except.error.inj h) ▸ validateTypeFilter_error he'⟩
    · split at h
      · exact ⟨"from", by
          rename_i e' he'
          exact (Except.error.inj h) ▸ validateDateFilter_error he'⟩
      · split at h
        · exact ⟨"to", by
            rename_i e' he'
            exact (Except.error.inj h) ▸ validateDateFilter_error he'⟩
        · split at h
          · exact ⟨"page", by
              rename_i e' he'
              exact (Except.error.inj h) ▸ validatePageNum_error he'⟩
          · split at h
            · exact ⟨"limit", by
                rename_i e' he'
                exact (Except.error.inj h) ▸ validateLimitNum_error he'⟩
            · exact absurd h (by simp)

/-- An unrecognized type filter string is rejected. -/
theorem validateTypeFilter_not_mem {t : String}
    (h : t ∉ VALID_TRANSACTION_TYPES) :
    validateTypeFilter (some t) = .error (.validationError "type") := by
  unfold validateTypeFilter
  split <;> simp_all [VALID_TRANSACTION_TYPES]

/-- C4: the transactions query rejects malformed input with a validation
error rather than degrading — a type filter outside the three transaction
types, a non-parseable `from`/`to` timestamp, a `NaN` or non-integer or
below-1 `page`, and a `NaN`, non-integer or out-of-`[1,100]` `limit` all
produce validation errors, never empty results and never clamping. -/
theorem getTransactions_rejects_malformed_input (s : EngineState)
    (id : String) (f : TxFilter) (pq : PageQuery) (line : CreditLine)
    (hline : getCreditLine s id = some line) :
    (∀ t, f.type = some t → t ∉ VALID_TRANSACTION_TYPES →
      isValidationError (getTransactions s id f pq) = true)
    ∧ (f.fromDate = some .invalid →
      isValidationError (getTransactions s id f pq) = true)
    ∧ (f.toDate = some .invalid →
      isValidationError (getTransactions s id f pq) = true)
    ∧ (pq.page = some .nan →
      isValidationError (getTransactions s id f pq) = true)
    ∧ (∀ q, pq.page = some (.val q) → (q.den ≠ 1 ∨ q < 1) →
      isValidationError (getTransactions s id f pq) = true)
    ∧ (pq.limit = some .nan →
      isValidationError (getTransactions s id f pq) = true)
    ∧ (∀ q, pq.limit = some (.val q) → (q.den ≠ 1 ∨ q < 1 ∨ 100 < q) →
      isValidationError (getTransactions s id f pq) = true) := by
  have herr : ∀ e, getTransactions s id f pq = .error e →
      isValidationError (getTransactions s id f pq) = true := by
    intro e he
    obtain ⟨fld, hfld⟩ := getTransactions_error_validation hline he
    rw [he, hfld]
    rfl
  have notOk : (∀ r, getTransactions s id f pq ≠ .ok r) →
      isValidationError (getTransactions s id f pq) = true := by
    intro hno
    cases hres : getTransactions s id f pq with
    | ok r => exact absurd hres (hno r)
    | error e =>
      have hv := herr e hres
      rwa [hres] at hv
  refine ⟨?_, ?_, ?_, ?_, ?_, ?_, ?_⟩
  · intro t ht hmem
    refine notOk fun r hr => ?_
    obtain ⟨_, tpe, _, _, _, _, _, hvt, _, _, _, _, _⟩ := getTransactions_ok_inv hr
    rw [ht, validateTypeFilter_not_mem hmem] at hvt
    exact absurd hvt (by simp)
  · intro hfrom
    refine notOk fun r hr => ?_
    obtain ⟨_, _, fromT, _, _, _, _, _, hvf, _, _, _, _⟩ := getTransactions_ok_inv hr
    rw [hfrom] at hvf
    exact absurd hvf (by simp [validateDateFilter])
  · intro hto
    refine notOk fun r hr => ?_
    obtain ⟨_, _, _, toT, _, _, _, _, _, hvt, _, _, _⟩ := getTransactions_ok_inv hr
    rw [hto] at hvt
    exact absurd hvt (by simp [validateDateFilter])
  · intro hp
    refine notOk fun r hr => ?_
    obtain ⟨_, _, _, _, page, _, _, _, _, _, hvp, _, _⟩ := getTransactions_ok_inv hr
    rw [hp] at hvp
    exact absurd hvp (by simp [validatePageNum])
  · intro q hq hbad
    refine notOk fun r hr => ?_
    obtain ⟨_, _, _, _, page, _, _, _, _, _, hvp, _, _⟩ := getTransactions_ok_inv hr
    rw [hq] at hvp
    have hneg : ¬(q.den = 1 ∧ 1 ≤ q.num) := by
      rcases hbad with hden | hlt
      · exact fun hh => hden hh.1
      · rintro ⟨hden1, hnum⟩
        have hq1 : ((q.num : ℚ)) = q := (Rat.den_eq_one_iff q).mp hden1
        have hge : (1 : ℚ) ≤ q := by
          rw [← hq1]
          exact_mod_cast hnum
        exact absurd hlt (not_lt.mpr hge)
    simp only [validatePageNum] at hvp
    rw [if_neg hneg] at hvp
    exact absurd hvp (by simp)
  · intro hl
    refine notOk fun r hr => ?_
    obtain ⟨_, _, _, _, _, limit, _, _, _, _, _, hvl, _⟩ := getTransactions_ok_inv hr
    rw [hl] at hvl
    exact absurd hvl (by simp [validateLimitNum])
  · intro q hq hbad
    refine notOk fun r hr => ?_
    obtain ⟨_, _, _, _, _, limit, _, _, _, _, _, hvl, _⟩ := getTransactions_ok_inv hr
    rw [hq] at hvl
    have hneg : ¬(q.den = 1 ∧ 1 ≤ q.num ∧ q.num ≤ 100) := by
      rcases hbad with hden | hlt | hgt
      · exact fun hh => hden hh.1
      · rintro ⟨hden1, hnum, _⟩
        have hq1 : ((q.num : ℚ)) = q := (Rat.den_eq_one_iff q).mp hden1
        have hge : (1 : ℚ) ≤ q := by
          rw [← hq1]
          exact_mod_cast hnum
        exact absurd hlt (not_lt.mpr hge)
      · rintro ⟨hden1, _, hnum⟩
        have hq1 : ((q.num : ℚ)) = q := (Rat.den_eq_one_iff q).mp hden1
        have hle : q ≤ (100 : ℚ) := by
          rw [← hq1]
          exact_mod_cast hnum
        exact absurd hgt (not_lt.mpr hle)
    simp only [validateLimitNum] at hvl
    rw [if_neg hneg] at hvl
    exact absurd hvl (by simp)

/-- C5: pagination arithmetic of the ledger query — the total counts the
whole filtered sequence, `totalPages = max(1, ceil(total/limit))` (hence 1
even when the total is 0), the returned transactions are exactly the slice
`[(page-1)*limit, page*limit)` of the filtered chronologically-ordered
sequence, and a page beyond range yields an empty page with the total
unchanged, not an error. -/
theorem getTransactions_pagination_math (s : EngineState) (id : String)
    (f : TxFilter) (pq : PageQuery) (r : QueryResult)
    (h : getTransactions s id f pq = .ok r) :
    ∃ tpe fromT toT,
      validateTypeFilter f.type = .ok tpe
      ∧ validateDateFilter "from" f.fromDate = .ok fromT
      ∧ validateDateFilter "to" f.toDate = .ok toT
      ∧ 1 ≤ r.limit ∧ r.limit ≤ 100
      ∧ r.total = (filteredTxs s.txStore id tpe fromT toT).length
      ∧ r.totalPages = max 1 ((r.total + r.limit - 1) / r.limit)
      ∧ (r.total = 0 → r.totalPages = 1)
      ∧ r.transactions =
          ((filteredTxs s.txStore id tpe fromT toT).drop
            ((r.page - 1) * r.limit)).take r.limit
      ∧ (r.total ≤ (r.page - 1) * r.limit → r.transactions = []) := by
  obtain ⟨line, tpe, fromT, toT, page, limit, hline, ht, hf, hto, hp, hl, hr⟩ :=
    getTransactions_ok_inv h
  obtain ⟨hl1, hl100⟩ := validateLimitNum_ok_bounds hl
  refine ⟨tpe, fromT, toT, ht, hf, hto, ?_⟩
  subst hr
  simp only [ledgerQuery]
  refine ⟨hl1, hl100, trivial, trivial, ?_, trivial, ?_⟩
  · intro h0
    rw [h0]
    have : (0 + limit - 1) / limit = 0 := Nat.div_eq_of_lt (by omega)
    omega
  · intro hle
    have hdrop : (filteredTxs s.txStore id tpe fromT toT).drop
        ((page - 1) * limit) = [] := by
      apply List.drop_eq_nil_of_le
      exact hle
    rw [hdrop, List.take_nil]

/-- Appending a status-change transaction for line `i` raises the
status-change count of `i` by one and leaves every other count unchanged. -/
theorem countStatusChange_append_sc (txs : List Transaction) (n : Nat)
    (i : String) (act : LifecycleAction) (t : Nat) (id : String) :
    countStatusChange (txs ++ [mkStatusChangeTx n i act t]) id =
      countStatusChange txs id + (if i = id then 1 else 0) := by
  unfold countStatusChange mkStatusChangeTx
  rw [List.filter_append, List.length_append]
  by_cases h : i = id <;> simp [h]

/-- Appending a non-status-change transaction never changes a
status-change count. -/
theorem countStatusChange_append_other (txs : List Transaction)
    (tx : Transaction) (h : tx.type ≠ .status_change) (id : String) :
    countStatusChange (txs ++ [tx]) id = countStatusChange txs id := by
  unfold countStatusChange
  rw [List.filter_append, List.length_append]
  simp [h]

/-- Engine invariant tying the store to the ledger: every stored line's
event log starts with `created` and has exactly as many entries as the
line has status-change transactions, and ids without a record have no
status-change transactions. -/
structure Inv (s : EngineState) : Prop where
  headCreated : ∀ id line, s.store id = some line →
    line.events.head?.map LifecycleEvent.action = some .created
  syncCount : ∀ id line, s.store id = some line →
    line.events.length = countStatusChange s.txStore id
  txOwned : ∀ id, s.store id = none → countStatusChange s.txStore id = 0

/-- The empty engine state satisfies the invariant. -/
theorem inv_init : Inv initState := by
  constructor
  · intro id line h
    exact absurd h (by simp [initState])
  · intro id line h
    exact absurd h (by simp [initState])
  · intro id _
    rfl

/-- Creation preserves the invariant. -/
theorem inv_create {s : EngineState} {id : String} {st : Status}
    {line : CreditLine} {s' : EngineState} (hs : Inv s)
    (h : createCreditLine s id st = .ok (line, s')) : Inv s' := by
  unfold createCreditLine at h
  split at h
  · exact absurd h (by simp)
  · rename_i hfind
    rw [Except.ok.injEq, Prod.mk.injEq] at h
    obtain ⟨-, hs'⟩ := h
    subst hs'
    constructor
    · intro i li hi
      simp only [storeSet] at hi
      by_cases hii : i = id
      · rw [if_pos (by simp [hii])] at hi
        cases Option.some.inj hi
        rfl
      · rw [if_neg (by simp [hii])] at hi
        exact hs.headCreated i li hi
    · intro i li hi
      simp only [storeSet] at hi
      rw [countStatusChange_append_sc]
      by_cases hii : i = id
      · rw [if_pos (by simp [hii])] at hi
        cases Option.some.inj hi
        subst hii
        rw [hs.txOwned i hfind, if_pos rfl]
        simp
      · rw [if_neg (by simp [hii])] at hi
        rw [hs.syncCount i li hi, if_neg (fun hh => hii hh.symm)]
        simp
    · intro i hi
      simp only [storeSet] at hi
      by_cases hii : i = id
      · rw [if_pos (by simp [hii])] at hi
        exact absurd hi (by simp)
      · rw [if_neg (by simp [hii])] at hi
        rw [countStatusChange_append_sc, hs.txOwned i hi,
          if_neg (fun hh => hii hh.symm)]

/-- A lifecycle update — replacing a stored line by a copy with one more
event and appending the matching status-change transaction — preserves the
invariant. -/
theorem inv_update_lifecycle {s : EngineState} {id : String}
    {line : CreditLine} (hs : Inv s) (hfind : s.store id = some line)
    (act : LifecycleAction) (stNew : Status) :
    Inv { store := storeSet s.store id
            { line with
              status := stNew, updatedAt := s.now,
              events := line.events ++ [⟨act, s.now⟩] }
          txStore := s.txStore ++ [mkStatusChangeTx s.nextTxId id act s.now]
          nextTxId := s.nextTxId + 1
          now := s.now + 1 } := by
  constructor
  · intro i li hi
    simp only [storeSet] at hi
    by_cases hii : i = id
    · rw [if_pos (by simp [hii])] at hi
      cases Option.some.inj hi
      have hhead := hs.headCreated id line hfind
      cases hev : line.events with
      | nil => rw [hev] at hhead; exact absurd hhead (by simp)
      | cons e rest =>
        rw [hev] at hhead
        simpa using hhead
    · rw [if_neg (by simp [hii])] at hi
      exact hs.headCreated i li hi
  · intro i li hi
    simp only [storeSet] at hi
    rw [countStatusChange_append_sc]
    by_cases hii : i = id
    · rw [if_pos (by simp [hii])] at hi
      cases Option.some.inj hi
      subst hii
      rw [if_pos rfl]
      simp [hs.syncCount i line hfind]
    · rw [if_neg (by simp [hii])] at hi
      rw [hs.syncCount i li hi, if_neg (fun hh => hii hh.symm)]
      simp
  · intro i hi
    simp only [storeSet] at hi
    by_cases hii : i = id
    · rw [if_pos (by simp [hii])] at hi
      exact absurd hi (by simp)
    · rw [if_neg (by simp [hii])] at hi
      rw [countStatusChange_append_sc, hs.txOwned i hi,
        if_neg (fun hh => hii hh.symm)]

/-- Suspension preserves the invariant. -/
theorem inv_suspend {s : EngineState} {id : String} {line : CreditLine}
    {s' : EngineState} (hs : Inv s)
    (h : suspendCreditLine s id = .ok (line, s')) : Inv s' := by
  unfold suspendCreditLine at h
  split at h
  · exact absurd h (by simp)
  · rename_i line₀ hfind
    split at h
    · rw [Except.ok.injEq, Prod.mk.injEq] at h
      obtain ⟨-, hs'⟩ := h
      subst hs'
      exact inv_update_lifecycle hs hfind LifecycleAction.suspended Status.suspended
    · exact absurd h (by simp)

/-- Closing preserves the invariant. -/
theorem inv_close {s : EngineState} {id : String} {line : CreditLine}
    {s' : EngineState} (hs : Inv s)
    (h : closeCreditLine s id = .ok (line, s')) : Inv s' := by
  unfold closeCreditLine at h
  split at h
  · exact absurd h (by simp)
  · rename_i line₀ hfind
    split at h
    · rw [Except.ok.injEq, Prod.mk.injEq] at h
      obtain ⟨-, hs'⟩ := h
      subst hs'
      exact inv_update_lifecycle hs hfind LifecycleAction.closed Status.closed
    · exact absurd h (by simp)

/-- Drawing preserves the invariant: it touches neither the event log nor
the status-change transactions. -/
theorem inv_draw {s : EngineState} {id borrowerId : String} {amount : Int}
    {line : CreditLine} {s' : EngineState} (hs : Inv s)
    (h : drawFromCreditLine s id borrowerId amount = .ok (line, s')) :
    Inv s' := by
  unfold drawFromCreditLine at h
  split at h
  · exact absurd h (by simp)
  · rename_i line₀ hfind
    split at h
    · exact absurd h (by simp)
    · rw [Except.ok.injEq, Prod.mk.injEq] at h
      obtain ⟨-, hs'⟩ := h
      subst hs'
      constructor
      · intro i li hi
        simp only [storeSet] at hi
        by_cases hii : i = id
        · rw [if_pos (by simp [hii])] at hi
          cases Option.some.inj hi
          exact hs.headCreated id line₀ hfind
        · rw [if_neg (by simp [hii])] at hi
          exact hs.headCreated i li hi
      · intro i li hi
        simp only [storeSet] at hi
        rw [countStatusChange_append_other _ _ (by simp)]
        by_cases hii : i = id
        · rw [if_pos (by simp [hii])] at hi
          cases Option.some.inj hi
          subst hii
          exact hs.syncCount i line₀ hfind
        · rw [if_neg (by simp [hii])] at hi
          exact hs.syncCount i li hi
      · intro i hi
        simp only [storeSet] at hi
        by_cases hii : i = id
        · rw [if_pos (by simp [hii])] at hi
          exact absurd hi (by simp)
        · rw [if_neg (by simp [hii])] at hi
          rw [countStatusChange_append_other _ _ (by simp)]
          exact hs.txOwned i hi

/-- One engine step preserves the invariant. -/
theorem inv_step {s : EngineState} (hs : Inv s) (op : Op) :
    Inv (step s op) := by
  cases hres : applyOp s op with
  | error e => simpa [step, hres] using hs
  | ok s' =>
    have hstep : step s op = s' := by simp [step, hres]
    rw [hstep]
    cases op with
    | createOp id st =>
      simp only [applyOp] at hres
      cases hc : createCreditLine s id st with
      | error e => rw [hc] at hres; exact absurd hres (by simp [Except.map])
      | ok p =>
        rw [hc] at hres
        simp only [Except.map, Except.ok.injEq] at hres
        subst hres
        exact inv_create hs (by rw [hc])
    | suspendOp id =>
      simp only [applyOp] at hres
      cases hc : suspendCreditLine s id with
      | error e => rw [hc] at hres; exact absurd hres (by simp [Except.map])
      | ok p =>
        rw [hc] at hres
        simp only [Except.map, Except.ok.injEq] at hres
        subst hres
        exact inv_suspend hs (by rw [hc])
    | closeOp id =>
      simp only [applyOp] at hres
      cases hc : closeCreditLine s id with
      | error e => rw [hc] at hres; exact absurd hres (by simp [Except.map])
      | ok p =>
        rw [hc] at hres
        simp only [Except.map, Except.ok.injEq] at hres
        subst hres
        exact inv_close hs (by rw [hc])
    | drawOp id b a =>
      simp only [applyOp] at hres
      cases hc : drawFromCreditLine s id b a with
      | error e => rw [hc] at hres; exact absurd hres (by simp [Except.map])
      | ok p =>
        rw [hc] at hres
        simp only [Except.map, Except.ok.injEq] at hres
        subst hres
        exact inv_draw hs (by rw [hc])

/-- Every run from an invariant state ends in an invariant state. -/
theorem inv_run (ops : List Op) : ∀ {s : EngineState}, Inv s →
    Inv (run s ops) := by
  induction ops with
  | nil => intro s hs; exact hs
  | cons op ops ih => intro s hs; exact ih (inv_step hs op)

/-- Event-log length of the line stored under `id`, or the length `1` a
record starts with at creation when `id` has no record yet. -/
def baseLen (s : EngineState) (id : String) : Nat :=
  match getCreditLine s id with
  | some line => line.events.length
  | none => 1

/-- One step changes `baseLen` exactly by the step's accepted suspend/close
contribution for that id. -/
theorem step_baseLen (s : EngineState) (op : Op) (id : String) :
    baseLen (step s op) id =
      baseLen s id +
        (match op with
         | .suspendOp i => if i = id ∧ (applyOp s op).isOk then 1 else 0
         | .closeOp i => if i = id ∧ (applyOp s op).isOk then 1 else 0
         | _ => 0) := by
  cases op with
  | createOp i st =>
    cases hc : createCreditLine s i st with
    | error e => simp [step, applyOp, hc, Except.map]
    | ok p =>
      have hstep : step s (.createOp i st) = p.2 := by
        simp [step, applyOp, hc, Except.map]
      rw [hstep]
      unfold createCreditLine at hc
      split at hc
      · exact absurd hc (by simp)
      · rename_i hfind
        rw [Except.ok.injEq] at hc
        subst hc
        by_cases hii : id = i
        · subst hii
          have hfind' : s.store id = none := hfind
          simp [baseLen, getCreditLine, storeSet, hfind']
        · simp only [baseLen, getCreditLine, storeSet]
          rw [if_neg (by simp only [beq_iff_eq]; exact hii)]
          simp
  | suspendOp i =>
    cases hc : suspendCreditLine s i with
    | error e =>
      simp [step, applyOp, hc, Except.map, Except.isOk, Except.toBool]
    | ok p =>
      have hstep : step s (.suspendOp i) = p.2 := by
        simp [step, applyOp, hc, Except.map]
      have hok : (applyOp s (.suspendOp i)).isOk = true := by
        simp [applyOp, hc, Except.map, Except.isOk, Except.toBool]
      rw [hstep]
      unfold suspendCreditLine at hc
      split at hc
      · exact absurd hc (by simp)
      · rename_i line₀ hfind
        split at hc
        · rw [Except.ok.injEq] at hc
          subst hc
          by_cases hii : i = id
          · subst hii
            have hfind' : s.store i = some line₀ := hfind
            simp [baseLen, getCreditLine, storeSet, hfind', hok]
          · simp only [baseLen, getCreditLine, storeSet]
            rw [if_neg (by simp only [beq_iff_eq]; exact Ne.symm hii)]
            simp [hii]
        · exact absurd hc (by simp)
  | closeOp i =>
    cases hc : closeCreditLine s i with
    | error e =>
      simp [step, applyOp, hc, Except.map, Except.isOk, Except.toBool]
    | ok p =>
      have hstep : step s (.closeOp i) = p.2 := by
        simp [step, applyOp, hc, Except.map]
      have hok : (applyOp s (.closeOp i)).isOk = true := by
        simp [applyOp, hc, Except.map, Except.isOk, Except.toBool]
      rw [hstep]
      unfold closeCreditLine at hc
      split at hc
      · exact absurd hc (by simp)
      · rename_i line₀ hfind
        split at hc
        · rw [Except.ok.injEq] at hc
          subst hc
          by_cases hii : i = id
          · subst hii
            have hfind' : s.store i = some line₀ := hfind
            simp [baseLen, getCreditLine, storeSet, hfind', hok]
          · simp only [baseLen, getCreditLine, storeSet]
            rw [if_neg (by simp only [beq_iff_eq]; exact Ne.symm hii)]
            simp [hii]
        · exact absurd hc (by simp)
  | drawOp i b a =>
    cases hc : drawFromCreditLine s i b a with
    | error e => simp [step, applyOp, hc, Except.map]
    | ok p =>
      have hstep : step s (.drawOp i b a) = p.2 := by
        simp [step, applyOp, hc, Except.map]
      rw [hstep]
      unfold drawFromCreditLine at hc
      split at hc
      · exact absurd hc (by simp)
      · rename_i line₀ hfind
        split at hc
        · exact absurd hc (by simp)
        · rw [Except.ok.injEq] at hc
          subst hc
          by_cases hii : i = id
          · subst hii
            have hfind' : s.store i = some line₀ := hfind
            simp [baseLen, getCreditLine, storeSet, hfind']
          · simp only [baseLen, getCreditLine, storeSet]
            rw [if_neg (by simp only [beq_iff_eq]; exact Ne.symm hii)]
            simp

/-- Unfolding equation of `acceptedLifecycle` on a non-empty run. -/
theorem acceptedLifecycle_cons (s : EngineState) (id : String) (op : Op)
    (ops : List Op) :
    acceptedLifecycle s id (op :: ops) =
      (match op with
       | .suspendOp i => if i = id ∧ (applyOp s op).isOk then 1 else 0
       | .closeOp i => if i = id ∧ (applyOp s op).isOk then 1 else 0
       | _ => 0)
      + acceptedLifecycle (step s op) id ops := by
  cases op <;> rfl

/-- Event-log length after a run: the starting length plus the number of
accepted suspend/close calls along the run. -/
theorem runLen (ops : List Op) : ∀ (s : EngineState) (id : String)
    (line : CreditLine), getCreditLine (run s ops) id = some line →
    line.events.length = baseLen s id + acceptedLifecycle s id ops := by
  induction ops with
  | nil =>
    intro s id line h
    simp only [run] at h
    simp [acceptedLifecycle, baseLen, h]
  | cons op ops ih =>
    intro s id line h
    rw [run] at h
    have hlen := ih (step s op) id line h
    rw [acceptedLifecycle_cons, hlen, step_baseLen s op id]
    omega

/-- C2: for every created credit line, after any sequence of engine
operations, the event log starts with `created`, its length is one more
than the number of accepted suspend/close calls on that line, and it equals
the number of status_change transactions recorded for that line in the
ledger. -/
theorem events_mirror_ledger (ops : List Op) (id : String)
    (line : CreditLine)
    (h : getCreditLine (run initState ops) id = some line) :
    line.events.head?.map LifecycleEvent.action = some .created
    ∧ line.events.length = 1 + acceptedLifecycle initState id ops
    ∧ line.events.length =
        countStatusChange (run initState ops).txStore id := by
  have hinv : Inv (run initState ops) := inv_run ops inv_init
  refine ⟨hinv.headCreated id line h, ?_, hinv.syncCount id line h⟩
  have hlen := runLen ops initState id line h
  have hbase : baseLen initState id = 1 := rfl
  omega

/-- C8: the list-pagination utility never rejects pagination input — the
page is clamped to a minimum of 1 (default 1), the page size is clamped
into `[1,100]` (default 10), and non-numeric input silently falls back to
the respective default. -/
theorem paginateAndFilter_clamps {T : Type}
    (fieldOf : T → String → Option String) (data : List T)
    (q : PaginationQuery) (fm : String → Option String) :
    1 ≤ (paginateAndFilter fieldOf data q fm).page
    ∧ 1 ≤ (paginateAndFilter fieldOf data q fm).pageSize
    ∧ (paginateAndFilter fieldOf data q fm).pageSize ≤ 100
    ∧ (q.page = none → (paginateAndFilter fieldOf data q fm).page = 1)
    ∧ (q.pageSize = none → (paginateAndFilter fieldOf data q fm).pageSize = 10)
    ∧ (∀ str, q.page = some str → parseIntJs str = none →
        (paginateAndFilter fieldOf data q fm).page = 1)
    ∧ (∀ str, q.pageSize = some str → parseIntJs str = none →
        (paginateAndFilter fieldOf data q fm).pageSize = 10)
    ∧ (∀ str n, q.page = some str → parseIntJs str = some n →
        (paginateAndFilter fieldOf data q fm).page = max 1 n)
    ∧ (∀ str n, q.pageSize = some str → parseIntJs str = some n →
        (paginateAndFilter fieldOf data q fm).pageSize = min 100 (max 1 n)) := by
  refine ⟨?_, ?_, ?_, ?_, ?_, ?_, ?_, ?_, ?_⟩
  · exact le_max_left 1 _
  · exact le_min (by norm_num) (le_max_left 1 _)
  · exact min_le_left 100 _
  · intro hp
    simp only [paginateAndFilter, hp]
    norm_num [show parseIntJs "1" = some 1 from by decide]
  · intro hp
    simp only [paginateAndFilter, hp]
    norm_num [show parseIntJs "10" = some 10 from by decide]
  · intro str hstr hnan
    simp [paginateAndFilter, hstr, hnan]
  · intro str hstr hnan
    simp [paginateAndFilter, hstr, hnan]
  · intro str n hstr hn
    simp [paginateAndFilter, hstr, hn]
  · intro str n hstr hn
    simp [paginateAndFilter, hstr, hn]

/-- C10: the list-pagination utility never mutates its input array — at
the heap level the input reference still holds the same list after the
call (filtering allocates a fresh array and the in-place sort touches only
that copy), the heap-level response agrees with the pure function, and the
reported total counts the filtered elements independently of the requested
page and page size. -/
theorem paginateAndFilter_no_mutation {T : Type}
    (fieldOf : T → String → Option String) (heap : List (List T))
    (dataRef : Nat) (q : PaginationQuery) (fm : String → Option String)
    (h : dataRef < heap.length) :
    (paginateAndFilterHeap fieldOf heap dataRef q fm).1.getD dataRef []
      = heap.getD dataRef []
    ∧ (paginateAndFilterHeap fieldOf heap dataRef q fm).2
      = paginateAndFilter fieldOf (heap.getD dataRef []) q fm
    ∧ (paginateAndFilter fieldOf (heap.getD dataRef []) q fm).total
      = ((heap.getD dataRef []).filter (filterFn fieldOf q fm)).length
    ∧ (∀ p ps, (paginateAndFilter fieldOf (heap.getD dataRef [])
          { q with page := p, pageSize := ps } fm).total
      = (paginateAndFilter fieldOf (heap.getD dataRef []) q fm).total) := by
  have hfres : (heap ++ [(heap.getD dataRef []).filter
      (filterFn fieldOf q fm)]).getD heap.length []
      = (heap.getD dataRef []).filter (filterFn fieldOf q fm) := by
    rw [List.getD_eq_getElem?_getD, List.getElem?_concat_length]
    rfl
  refine ⟨?_, ?_, ?_, ?_⟩
  · show ((heap ++ [_]).set heap.length _).getD dataRef [] = _
    rw [List.getD_eq_getElem?_getD, List.getElem?_set_ne (by omega),
      List.getElem?_append_left h, List.getD_eq_getElem?_getD]
  · show (_, _).2 = _
    simp only [paginateAndFilter, sortedFiltered, hfres]
  · simp [paginateAndFilter, sortedFiltered]
  · intro p ps
    simp only [paginateAndFilter, sortedFiltered]
    rw [List.length_insertionSort, List.length_insertionSort]
    exact congrArg _ (List.filter_congr fun x _ => rfl)

/-- The executable character-list comparison agrees with the library's
lexicographic order. -/
theorem charListLt_iff (as bs : List Char) :
    charListLt as bs = true ↔ as < bs := by
  induction as generalizing bs with
  | nil =>
    cases bs with
    | nil =>
      simp only [charListLt]
      constructor
      · intro h
        exact absurd h (by simp)
      · intro h
        exact absurd h (by
          intro hh
          exact absurd hh (by
            show ¬ List.Lex _ _ _
            intro hl
            cases hl))
    | cons b bs =>
      simp only [charListLt]
      constructor
      · intro _
        exact List.nil_lt_cons b bs
      · intro _
        trivial
  | cons a as ih =>
    cases bs with
    | nil =>
      simp only [charListLt]
      constructor
      · intro h
        exact absurd h (by simp)
      · intro h
        exact absurd h (by
          show ¬ List.Lex _ _ _
          intro hl
          cases hl)
    | cons b bs =>
      simp only [charListLt, Bool.or_eq_true, Bool.and_eq_true,
        decide_eq_true_eq, beq_iff_eq, ih]
      constructor
      · rintro (hab | ⟨rfl, hrest⟩)
        · exact List.Lex.rel hab
        · exact List.Lex.cons hrest
      · intro h
        cases h with
        | cons hrest => exact Or.inr ⟨rfl, hrest⟩
        | rel hab => exact Or.inl hab

/-- The executable string comparison agrees with the library order. -/
theorem strLtB_iff (a b : String) : strLtB a b = true ↔ a < b := by
  rw [strLtB, charListLt_iff, String.lt_iff_toList_lt]

/-- Negative form: the comparator result `false` means the reverse
non-strict order holds. -/
theorem strLtB_eq_false_iff (a b : String) : strLtB a b = false ↔ b ≤ a := by
  rw [← not_lt, ← strLtB_iff]
  cases strLtB a b <;> simp

/-- The comparator-induced `le` is the non-strict natural order of the
field values, in the direction requested. -/
theorem sortLe_iff {T : Type} (fieldOf : T → String → Option String)
    (key : String) (desc : Bool) (a b : T) :
    sortLe fieldOf key desc a b = true ↔
      (if desc then (fieldOf b key).getD "" ≤ (fieldOf a key).getD ""
       else (fieldOf a key).getD "" ≤ (fieldOf b key).getD "") := by
  cases desc <;>
    simp [sortLe, Bool.not_eq_true', strLtB_eq_false_iff]

/-- Transitivity of the comparator-induced `le`. -/
theorem sortLe_trans {T : Type} {fieldOf : T → String → Option String}
    {key : String} {desc : Bool} {a b c : T}
    (h₁ : sortLe fieldOf key desc a b = true)
    (h₂ : sortLe fieldOf key desc b c = true) :
    sortLe fieldOf key desc a c = true := by
  rw [sortLe_iff] at h₁ h₂ ⊢
  cases desc <;> simp only [if_true, if_false, Bool.false_eq_true] at h₁ h₂ ⊢ <;>
    [exact le_trans h₁ h₂; exact le_trans h₂ h₁]

/-- Totality of the comparator-induced `le`. -/
theorem sortLe_total {T : Type} (fieldOf : T → String → Option String)
    (key : String) (desc : Bool) (a b : T) :
    sortLe fieldOf key desc a b = true ∨ sortLe fieldOf key desc b a = true := by
  rw [sortLe_iff, sortLe_iff]
  cases desc <;> simp only [if_true, if_false, Bool.false_eq_true] <;>
    exact le_total _ _

/-- A relation that holds everywhere holds pairwise on every list. -/
theorem pairwise_of_forall {α : Type} {R : α → α → Prop}
    (h : ∀ x y, R x y) : ∀ l : List α, l.Pairwise R
  | [] => .nil
  | x :: l => .cons (fun y _ => h x y) (pairwise_of_forall h l)

/-- A list filtered by a predicate is pairwise related by any relation
that holds between any two elements satisfying the predicate. -/
theorem pairwise_filter_of_eq {α : Type} {R : α → α → Prop} {p : α → Bool}
    (h : ∀ x y, p x = true → p y = true → R x y) :
    ∀ l : List α, (l.filter p).Pairwise R := by
  intro l
  induction l with
  | nil => exact .nil
  | cons a l ih =>
    by_cases hpa : p a = true
    · rw [List.filter_cons_of_pos hpa]
      exact .cons (fun y hy => h a y hpa (List.of_mem_filter hy)) ih
    · rw [List.filter_cons_of_neg (by simpa using hpa)]
      exact ih

/-- Filtering twice by the same predicate filters once. -/
theorem filter_self_idem {α : Type} (p : α → Bool) (l : List α) :
    (l.filter p).filter p = l.filter p := by
  rw [List.filter_filter]
  exact List.filter_congr fun x _ => Bool.and_self _

/-- The sorted-filtered sequence of `paginateAndFilter` is pairwise ordered
by the comparator-induced `le`. -/
theorem sortedFiltered_pairwise {T : Type}
    (fieldOf : T → String → Option String) (data : List T)
    (q : PaginationQuery) (fm : String → Option String) :
    (sortedFiltered fieldOf data q fm).Pairwise
      (fun a b => sortLe fieldOf (sortKeyOf q fm)
        (q.sortDirection == some "desc") a b = true) := by
  unfold sortedFiltered
  haveI : IsTrans T (fun a b => sortLe fieldOf (sortKeyOf q fm)
      (q.sortDirection == some "desc") a b = true) :=
    ⟨fun _ _ _ h₁ h₂ => sortLe_trans h₁ h₂⟩
  haveI : IsTotal T (fun a b => sortLe fieldOf (sortKeyOf q fm)
      (q.sortDirection == some "desc") a b = true) :=
    ⟨fun a b => sortLe_total _ _ _ a b⟩
  exact List.sorted_insertionSort _ _

/-- C9: `paginateAndFilter` sorts by the mapped `sortBy` key (default
`createdAt`), ascending by default with `desc` the only other accepted
direction (anything else behaves as ascending), the comparison is the
natural order of the field values, and the sort is stable — items with
equal sort keys keep their relative input order. -/
theorem paginateAndFilter_sort_spec {T : Type}
    (fieldOf : T → String → Option String) (data : List T)
    (q : PaginationQuery) (fm : String → Option String) :
    (paginateAndFilter fieldOf data q fm).items =
      ((sortedFiltered fieldOf data q fm).drop
        (((paginateAndFilter fieldOf data q fm).page - 1)
          * (paginateAndFilter fieldOf data q fm).pageSize).toNat).take
        (paginateAndFilter fieldOf data q fm).pageSize.toNat
    ∧ (q.sortBy = none → sortKeyOf q fm = "createdAt")
    ∧ (∀ d, d ≠ "desc" →
        paginateAndFilter fieldOf data { q with sortDirection := some d } fm
          = paginateAndFilter fieldOf data { q with sortDirection := some "asc" } fm)
    ∧ (q.sortDirection ≠ some "desc" →
        (sortedFiltered fieldOf data q fm).Pairwise
          (fun a b => (fieldOf a (sortKeyOf q fm)).getD ""
            ≤ (fieldOf b (sortKeyOf q fm)).getD ""))
    ∧ (q.sortDirection = some "desc" →
        (sortedFiltered fieldOf data q fm).Pairwise
          (fun a b => (fieldOf b (sortKeyOf q fm)).getD ""
            ≤ (fieldOf a (sortKeyOf q fm)).getD ""))
    ∧ (∀ v : String,
        (sortedFiltered fieldOf data q fm).filter
            (fun x => (fieldOf x (sortKeyOf q fm)).getD "" == v)
          = (data.filter (filterFn fieldOf q fm)).filter
            (fun x => (fieldOf x (sortKeyOf q fm)).getD "" == v)) := by
  refine ⟨rfl, ?_, ?_, ?_, ?_, ?_⟩
  · intro h
    simp [sortKeyOf, h]
  · intro d hd
    have hf : filterFn fieldOf { q with sortDirection := some d } fm
        = filterFn fieldOf { q with sortDirection := some "asc" } fm := by
      funext item
      rfl
    have hq1 : (({ q with sortDirection := some d } : PaginationQuery).sortDirection
        == some "desc") = false := by
      simp [hd]
    have hq2 : (({ q with sortDirection := some "asc" } : PaginationQuery).sortDirection
        == some "desc") = false := rfl
    have hk : sortKeyOf { q with sortDirection := some d } fm
        = sortKeyOf { q with sortDirection := some "asc" } fm := rfl
    simp only [paginateAndFilter, sortedFiltered, hq1, hq2, hf]
    simp only [hk]
  · intro hd
    have hdesc : (q.sortDirection == some "desc") = false := by
      rw [beq_eq_false_iff_ne]
      exact hd
    have hp := sortedFiltered_pairwise fieldOf data q fm
    refine hp.imp ?_
    intro a b hab
    rw [hdesc, sortLe_iff] at hab
    simpa using hab
  · intro hd
    have hdesc : (q.sortDirection == some "desc") = true := by
      simp [hd]
    have hp := sortedFiltered_pairwise fieldOf data q fm
    refine hp.imp ?_
    intro a b hab
    rw [hdesc, sortLe_iff] at hab
    simpa using hab
  · intro v
    haveI : IsTrans T (fun a b => sortLe fieldOf (sortKeyOf q fm)
        (q.sortDirection == some "desc") a b = true) :=
      ⟨fun _ _ _ h₁ h₂ => sortLe_trans h₁ h₂⟩
    haveI : IsTotal T (fun a b => sortLe fieldOf (sortKeyOf q fm)
        (q.sortDirection == some "desc") a b = true) :=
      ⟨fun a b => sortLe_total _ _ _ a b⟩
    have hpair : ((data.filter (filterFn fieldOf q fm)).filter
        (fun x => (fieldOf x (sortKeyOf q fm)).getD "" == v)).Pairwise
        (fun a b => sortLe fieldOf (sortKeyOf q fm)
          (q.sortDirection == some "desc") a b = true) := by
      apply pairwise_filter_of_eq
      intro x y hx hy
      rw [beq_iff_eq] at hx hy
      rw [sortLe_iff, hx, hy]
      split <;> exact le_rfl
    have hsub : List.Sublist
        ((data.filter (filterFn fieldOf q fm)).filter
          (fun x => (fieldOf x (sortKeyOf q fm)).getD "" == v))
        (data.filter (filterFn fieldOf q fm)) :=
      List.filter_sublist _
    have hstab := List.sublist_insertionSort hpair hsub
    have hsub2 := hstab.filter
      (fun x => (fieldOf x (sortKeyOf q fm)).getD "" == v)
    rw [filter_self_idem] at hsub2
    have hperm := (List.perm_insertionSort
      (fun a b => sortLe fieldOf (sortKeyOf q fm)
        (q.sortDirection == some "desc") a b = true)
      (data.filter (filterFn fieldOf q fm))).filter
      (fun x => (fieldOf x (sortKeyOf q fm)).getD "" == v)
    show (sortedFiltered fieldOf data q fm).filter _ = _
    unfold sortedFiltered
    exact ((List.Sublist.eq_of_length hsub2 hperm.length_eq.symm)).symm

/-! ## Concrete witnesses -/

/-- Witness for C1 at a stored suspended line: suspending again is
rejected with the invalid-transition error. -/
theorem suspend_close_transition_legality_witness :
    suspendCreditLine (run initState [Op.createOp "a" Status.suspended]) "a"
      = .error (.invalidTransition Status.suspended "suspend") :=
  (suspend_close_transition_legality
    (run initState [Op.createOp "a" Status.suspended]) "a"
    ⟨"a", Status.suspended, 0, 0, [⟨LifecycleAction.created, 0⟩]⟩
    rfl).2.2.1 (by decide)

/-- Witness for C2 on the run create-then-suspend of a single line. -/
theorem events_mirror_ledger_witness :
    (⟨"a", Status.suspended, 0, 1,
        [⟨LifecycleAction.created, 0⟩, ⟨LifecycleAction.suspended, 1⟩]⟩ :
      CreditLine).events.head?.map LifecycleEvent.action
        = some LifecycleAction.created
    ∧ (⟨"a", Status.suspended, 0, 1,
        [⟨LifecycleAction.created, 0⟩, ⟨LifecycleAction.suspended, 1⟩]⟩ :
      CreditLine).events.length
        = 1 + acceptedLifecycle initState "a"
            [Op.createOp "a" Status.active, Op.suspendOp "a"]
    ∧ (⟨"a", Status.suspended, 0, 1,
        [⟨LifecycleAction.created, 0⟩, ⟨LifecycleAction.suspended, 1⟩]⟩ :
      CreditLine).events.length
        = countStatusChange
            (run initState [Op.createOp "a" Status.active, Op.suspendOp "a"]).txStore
            "a" :=
  events_mirror_ledger [Op.createOp "a" Status.active, Op.suspendOp "a"] "a"
    ⟨"a", Status.suspended, 0, 1,
      [⟨LifecycleAction.created, 0⟩, ⟨LifecycleAction.suspended, 1⟩]⟩ rfl

/-- Witness for C3 on a freshly created line's default query. -/
theorem getTransactions_partition_isolation_witness :
    ({ transactions := [mkStatusChangeTx 0 "a" LifecycleAction.created 0],
       total := 1, page := 1, limit := 20, totalPages := 1 } :
      QueryResult).transactions.all (fun tx => tx.creditLineId == "a")
      = true :=
  getTransactions_partition_isolation
    (run initState [Op.createOp "a" Status.active]) "a" {} {}
    { transactions := [mkStatusChangeTx 0 "a" LifecycleAction.created 0],
      total := 1, page := 1, limit := 20, totalPages := 1 } rfl

/-- Witness for C4 at an unrecognized type filter. -/
theorem getTransactions_rejects_malformed_input_witness :
    isValidationError
      (getTransactions (run initState [Op.createOp "a" Status.active]) "a"
        { type := some "bogus" } {}) = true :=
  (getTransactions_rejects_malformed_input
    (run initState [Op.createOp "a" Status.active]) "a"
    { type := some "bogus" } {}
    ⟨"a", Status.active, 0, 0, [⟨LifecycleAction.created, 0⟩]⟩ rfl).1
    "bogus" rfl (by decide)

/-- Witness for C5: total-pages arithmetic on the same concrete query. -/
theorem getTransactions_pagination_math_witness :
    ({ transactions := [mkStatusChangeTx 0 "a" LifecycleAction.created 0],
       total := 1, page := 1, limit := 20, totalPages := 1 } :
      QueryResult).totalPages = max 1 ((1 + 20 - 1) / 20) := by
  obtain ⟨tpe, fromT, toT, -, -, -, -, -, -, hpages, -, -, -⟩ :=
    getTransactions_pagination_math
      (run initState [Op.createOp "a" Status.active]) "a" {} {}
      { transactions := [mkStatusChangeTx 0 "a" LifecycleAction.created 0],
        total := 1, page := 1, limit := 20, totalPages := 1 } rfl
  exact hpages

/-- Witness for C6 at a concrete transaction and empty filters. -/
theorem filteredTxs_date_range_inclusive_witness :
    mkStatusChangeTx 0 "a" LifecycleAction.created 0
        ∈ filteredTxs [mkStatusChangeTx 0 "a" LifecycleAction.created 0]
          "a" none none none ↔
      mkStatusChangeTx 0 "a" LifecycleAction.created 0
          ∈ [mkStatusChangeTx 0 "a" LifecycleAction.created 0]
      ∧ (mkStatusChangeTx 0 "a" LifecycleAction.created 0).creditLineId = "a"
      ∧ (∀ t, (none : Option TxType) = some t →
          (mkStatusChangeTx 0 "a" LifecycleAction.created 0).type = t)
      ∧ (∀ f, (none : Option Nat) = some f →
          f ≤ (mkStatusChangeTx 0 "a" LifecycleAction.created 0).timestamp)
      ∧ (∀ t, (none : Option Nat) = some t →
          (mkStatusChangeTx 0 "a" LifecycleAction.created 0).timestamp ≤ t) :=
  filteredTxs_date_range_inclusive
    [mkStatusChangeTx 0 "a" LifecycleAction.created 0] "a" none none none
    (mkStatusChangeTx 0 "a" LifecycleAction.created 0)

/-- Witness for C7: re-creating an existing id fails and leaves the state
unchanged. -/
theorem createCreditLine_duplicate_rejected_witness :
    createCreditLine (run initState [Op.createOp "a" Status.active]) "a"
        Status.active = .error (.duplicateId "a")
    ∧ step (run initState [Op.createOp "a" Status.active])
        (.createOp "a" Status.active)
      = run initState [Op.createOp "a" Status.active] :=
  createCreditLine_duplicate_rejected
    (run initState [Op.createOp "a" Status.active]) "a" Status.active
    ⟨"a", Status.active, 0, 0, [⟨LifecycleAction.created, 0⟩]⟩ rfl

/-- Witness for C8: a non-numeric page falls back to page 1. -/
theorem paginateAndFilter_clamps_witness :
    (paginateAndFilter (fun (_ : Nat) _ => none) ([] : List Nat)
      { page := some "abc" } (fun _ => none)).page = 1 :=
  (paginateAndFilter_clamps (fun (_ : Nat) _ => none) ([] : List Nat)
    { page := some "abc" } (fun _ => none)).2.2.2.2.2.1 "abc" rfl (by decide)

/-- Witness for C9: the returned items are the slice of the sorted
filtered sequence, at a concrete unsorted input. -/
theorem paginateAndFilter_sort_spec_witness :
    (paginateAndFilter (fun (x : String) _ => some x) ["b", "a"] {}
      (fun _ => none)).items =
      ((sortedFiltered (fun (x : String) _ => some x) ["b", "a"] {}
        (fun _ => none)).drop
        (((paginateAndFilter (fun (x : String) _ => some x) ["b", "a"] {}
            (fun _ => none)).page - 1)
          * (paginateAndFilter (fun (x : String) _ => some x) ["b", "a"] {}
            (fun _ => none)).pageSize).toNat).take
        (paginateAndFilter (fun (x : String) _ => some x) ["b", "a"] {}
          (fun _ => none)).pageSize.toNat :=
  (paginateAndFilter_sort_spec (fun (x : String) _ => some x) ["b", "a"] {}
    (fun _ => none)).1

/-- Witness for C10: the input array is untouched on a concrete heap. -/
theorem paginateAndFilter_no_mutation_witness :
    (paginateAndFilterHeap (fun (x : String) _ => some x) [["b", "a"]] 0 {}
      (fun _ => none)).1.getD 0 [] = [["b", "a"]].getD 0 [] :=
  (paginateAndFilter_no_mutation (fun (x : String) _ => some x) [["b", "a"]]
    0 {} (fun _ => none) (by decide)).1

end Creditra
